import Mathlib

/-!
Verification of the `rnnr` event-driven loop runner.

The repository mixes several revisions of the same runner.  The parts of the
source embedded here are:

* `src/rnnr/event.py` — the `Event` enumeration (`REvent` below);
* `src/rnnr/runner.py` `Runner._emit` — the dict-state dispatcher (`emit`);
* `src/rnnr/runner.py` `Runner.on` / `Runner.on_started` — callback
  registration (`onMany`, `onSingle`, `onDecorator`, `onStarted`);
* `src/rnnr/runner.py` `Runner.run` and the `_run_callbacks_on_*` helpers —
  the typed-callback loop (`trun` and friends);
* `src/rnnr/runner.py` `Runner.resume` — resumption (`resume`), whose helper
  `Runner._run_epoch` is absent from the sources and is modelled from the
  spec;
* `src/rnnr/handlers.py` `Checkpointer.__call__` / `_should_delete` /
  `_delete` — bounded checkpoint retention (`ckptCall`);
* the dict-state `Runner.run` that pairs with `resume`/`_emit` is absent
  from the sources (only its tests and `resume` refer to it) and is
  modelled from the spec (`srun` and friends).

Dict-state callbacks receive the whole mutable state dictionary.  The spec
(§3) requires the loop-owned fields (`epoch`, `n_iters`, `batches`,
`max_epoch`) for the runner to function; callbacks are accordingly modelled
as reading the full state while writing the `running` flag and an opaque
`user` component (the caller-owned keys of the dict).
-/

/-- Run state shared by reference with every dict-state callback
(`Runner.state` in `src/rnnr/runner.py`): the `running` continuation flag,
the 1-based `epoch`, the `max_epoch` bound, the monotone `n_iters` batch
counter, the batch sequence, the in-flight `batch` and `output` values, and
the caller-owned remainder of the dictionary (`user`). -/
structure RunState (α β σ : Type) where
  running : Bool
  epoch : Nat
  max_epoch : Nat
  n_iters : Nat
  batches : List α
  batch : Option α
  output : Option β
  user : σ
deriving Repr

/-- A dict-state callback: it reads the whole run state and returns the new
value of the `running` flag together with the new caller-owned component. -/
def Cb (α β σ : Type) : Type := RunState α β σ → Bool × σ

/-- Applying one callback to the state: only `running` and the caller-owned
component change. -/
def applyCb {α β σ : Type} (cb : Cb α β σ) (s : RunState α β σ) : RunState α β σ :=
  let r := cb s
  { s with running := r.1, user := r.2 }

/-- `Runner._emit` (src/rnnr/runner.py lines 196–200): invoke the callbacks
registered for an event in order, but before each invocation check the
`running` flag and abort the dispatch once it is false.  Besides the final
state, the model returns the 0-based positions of the callbacks that were
actually invoked, in invocation order. -/
def emit {α β σ : Type} (cbs : List (Cb α β σ)) (s : RunState α β σ) :
    RunState α β σ × List Nat :=
  match cbs with
  | [] => (s, [])
  | cb :: rest =>
    if s.running then
      let r := emit rest (applyCb cb s)
      (r.1, 0 :: r.2.map (fun i => i + 1))
    else (s, [])

/-- The `Event` enumeration of `src/rnnr/event.py`: the five public
lifecycle events plus the private events used by the attachments. -/
inductive REvent where
  | started
  | epochStarted
  | batch
  | epochFinished
  | finished
  | etimerStarted
  | etimerFinished
  | pbarCreated
  | pbarUpdated
  | pbarClosed
  | reducerReset
  | reducerUpdated
  | reducerComputed
deriving DecidableEq, Repr

/-- True exactly on the `FINISHED` event. -/
def REvent.isFinished : REvent → Bool
  | REvent.finished => true
  | _ => false

/-- `Runner.on(event, callbacks)` with a sequence of callbacks
(src/rnnr/runner.py lines 115–121): `extend` the event's list with the
callbacks in the given order. -/
def onMany {γ : Type} (reg : REvent → List γ) (ev : REvent) (cbs : List γ) :
    REvent → List γ :=
  fun e => if e = ev then reg e ++ cbs else reg e

/-- `Runner.on(event, callback)` with a single callback
(src/rnnr/runner.py line 120): `append` it to the event's list. -/
def onSingle {γ : Type} (reg : REvent → List γ) (ev : REvent) (cb : γ) :
    REvent → List γ :=
  fun e => if e = ev then reg e ++ [cb] else reg e

/-- The decorator returned by `Runner.on(event)` when no callbacks are given
(src/rnnr/runner.py lines 123–127): append the callback to the event's list
and hand the callback itself back. -/
def onDecorator {γ : Type} (reg : REvent → List γ) (ev : REvent) (cb : γ) :
    (REvent → List γ) × γ :=
  (onSingle reg ev cb, cb)

/-- `Runner.on_started` (src/rnnr/runner.py lines 75–77): append the
callback to the started-callback list and return the callback. -/
def onStarted {δ : Type} (cbs : List δ) (cb : δ) : List δ × δ :=
  (cbs ++ [cb], cb)

/-- Events of the spec's lifecycle catalog (§4.1), tagged with the 1-based
epoch number and 0-based batch index they belong to.  Each occurrence in a
trace records one emission point being reached; whether the registered
callbacks actually run there is governed separately by `emit`. -/
inductive SEvent where
  | started
  | epochStarted (e : Nat)
  | batchStarted (e : Nat) (i : Nat)
  | batchFinished (e : Nat) (i : Nat)
  | epochFinished (e : Nat)
  | finished
deriving DecidableEq, Repr

/-- True exactly on `STARTED`. -/
def SEvent.isStarted : SEvent → Bool
  | SEvent.started => true
  | _ => false

/-- True exactly on `EPOCH_STARTED` occurrences. -/
def SEvent.isEpochStarted : SEvent → Bool
  | SEvent.epochStarted _ => true
  | _ => false

/-- True exactly on `BATCH_STARTED` occurrences. -/
def SEvent.isBatchStarted : SEvent → Bool
  | SEvent.batchStarted _ _ => true
  | _ => false

/-- True exactly on `BATCH_FINISHED` occurrences. -/
def SEvent.isBatchFinished : SEvent → Bool
  | SEvent.batchFinished _ _ => true
  | _ => false

/-- True exactly on `EPOCH_FINISHED` occurrences. -/
def SEvent.isEpochFinished : SEvent → Bool
  | SEvent.epochFinished _ => true
  | _ => false

/-- True exactly on `FINISHED`. -/
def SEvent.isFinished : SEvent → Bool
  | SEvent.finished => true
  | _ => false

/-- A `BATCH_STARTED` callback (spec §4.2): besides the new `running` flag
and caller-owned component it returns a (possibly transformed) batch value
that replaces the batch for subsequent processing. -/
def BCb (α β σ : Type) : Type := RunState α β σ → Bool × σ × α

/-- Dispatch of the `BATCH_STARTED` callbacks: the same check-`running`-
before-each-callback rule as `emit`, threading the batch value through each
callback so that every callback sees the output of the previous one. -/
def emitBS {α β σ : Type} (cbs : List (BCb α β σ)) (s : RunState α β σ) (b : α) :
    RunState α β σ × α :=
  match cbs with
  | [] => (s, b)
  | cb :: rest =>
    if s.running then
      let r := cb s
      emitBS rest { s with running := r.1, user := r.2.1, batch := some r.2.2 } r.2.2
    else (s, b)

/-- A dict-state runner configuration for the spec's unified loop: the
batch-processing function `(batch) -> output` and the per-event callback
lists, in registration order. -/
structure SpecRunner (α β σ : Type) where
  proc : α → β
  startedCbs : List (Cb α β σ)
  epochStartedCbs : List (Cb α β σ)
  batchStartedCbs : List (BCb α β σ)
  batchFinishedCbs : List (Cb α β σ)
  epochFinishedCbs : List (Cb α β σ)
  finishedCbs : List (Cb α β σ)

/-- Modelled from the spec: the per-batch body of the dict-state
`Runner.run`, which is absent from the sources.  Following §4.3: set
`batch`, emit `BATCH_STARTED` (chaining batch transformations), invoke the
batch-processing function to produce `output`, emit `BATCH_FINISHED`, and
increment `n_iters`.  Returns the new state together with the transformed
batch value that the processor received. -/
def batchStep {α β σ : Type} (R : SpecRunner α β σ) (b : α) (s : RunState α β σ) :
    RunState α β σ × α :=
  let s0 := { s with batch := some b }
  let r1 := emitBS R.batchStartedCbs s0 b
  let out := R.proc r1.2
  let s2 := (emit R.batchFinishedCbs { r1.1 with output := some out }).1
  ({ s2 with n_iters := s2.n_iters + 1 }, r1.2)

/-- Modelled from the spec: the batch loop of the missing dict-state
`Runner.run` (§4.1, §4.3) — one `batchStep` per item of `batches` while
`running` is true; a stop requested during a batch still completes that
batch's `BATCH_FINISHED` emission and then breaks, so the next batch is
never started.  Returns the trace of emitted events, the list of
`(epoch, index, value)` triples handed to the processor, and the final
state. -/
def batchLoop {α β σ : Type} (R : SpecRunner α β σ) (e : Nat) :
    Nat → List α → RunState α β σ → List SEvent × List (Nat × Nat × α) × RunState α β σ
  | _, [], s => ([], [], s)
  | i, b :: rest, s =>
    if s.running then
      let r1 := batchStep R b s
      let r2 := batchLoop R e (i + 1) rest r1.1
      (SEvent.batchStarted e i :: SEvent.batchFinished e i :: r2.1,
        (e, i, r1.2) :: r2.2.1, r2.2.2)
    else ([], [], s)

/-- Modelled from the spec: the epoch loop of the missing dict-state
`Runner.run` (§4.3) — for each epoch while `running`: set `epoch`, emit
`EPOCH_STARTED`; if `running` became false, skip the batch loop entirely;
then clear `batch`/`output` and emit `EPOCH_FINISHED` (required even for a
partial or skipped epoch).  The first argument counts the remaining epochs
(`max_epoch` at the top-level call), the second is the 1-based number of
the next epoch. -/
def epochLoop {α β σ : Type} (R : SpecRunner α β σ) (bs : List α) :
    Nat → Nat → RunState α β σ → List SEvent × List (Nat × Nat × α) × RunState α β σ
  | 0, _, s => ([], [], s)
  | n + 1, e, s =>
    if s.running then
      let s1 := (emit R.epochStartedCbs { s with epoch := e }).1
      let rB := if s1.running then batchLoop R e 0 bs s1 else ([], [], s1)
      let s3 := (emit R.epochFinishedCbs { rB.2.2 with batch := none, output := none }).1
      let rR := epochLoop R bs n (e + 1) s3
      (SEvent.epochStarted e :: rB.1 ++ SEvent.epochFinished e :: rR.1,
        rB.2.1 ++ rR.2.1, rR.2.2)
    else ([], [], s)

/-- Modelled from the spec: the dict-state `Runner.run(batches, max_epoch)`
that pairs with `Runner.resume` and `Runner._emit`; it is absent from the
sources (only its tests and `resume` refer to it).  Following §4.3:
initialize the run state, set `running = true`, emit `STARTED`, loop epochs
`1..max_epoch` while `running`, then clear `epoch`, set `running = false`
and emit `FINISHED` unconditionally. -/
def srun {α β σ : Type} (R : SpecRunner α β σ) (bs : List α) (M : Nat) (u0 : σ) :
    List SEvent × List (Nat × Nat × α) × RunState α β σ :=
  let s0 : RunState α β σ :=
    { running := true, epoch := 0, max_epoch := M, n_iters := 0, batches := bs,
      batch := none, output := none, user := u0 }
  let s1 := (emit R.startedCbs s0).1
  let rE := epochLoop R bs M 1 s1
  let s3 : RunState α β σ := { rE.2.2 with epoch := 0, running := false }
  let s4 := (emit R.finishedCbs s3).1
  (SEvent.started :: rE.1 ++ [SEvent.finished], rE.2.1, s4)

/-- A dict-state callback that never requests a stop: it always returns
`running = true`. -/
def NoStopCb {α β σ : Type} (cb : Cb α β σ) : Prop :=
  ∀ s : RunState α β σ, (cb s).1 = true

/-- A batch-started callback that never requests a stop. -/
def NoStopB {α β σ : Type} (cb : BCb α β σ) : Prop :=
  ∀ s : RunState α β σ, (cb s).1 = true

/-- No registered callback of the runner ever requests a stop. -/
def NoStop {α β σ : Type} (R : SpecRunner α β σ) : Prop :=
  (∀ cb ∈ R.startedCbs, NoStopCb cb) ∧ (∀ cb ∈ R.epochStartedCbs, NoStopCb cb) ∧
  (∀ cb ∈ R.batchStartedCbs, NoStopB cb) ∧ (∀ cb ∈ R.batchFinishedCbs, NoStopCb cb) ∧
  (∀ cb ∈ R.epochFinishedCbs, NoStopCb cb) ∧ (∀ cb ∈ R.finishedCbs, NoStopCb cb)

/-- Modelled from the spec: `Runner._run_epoch`, which `Runner.resume`
calls but which is absent from the sources.  Per remaining batch while
`running` (§4.3, and mirroring the per-batch emission triple that the
`repeat_last_batch` branch of `resume` replays): set `batch` from
`batches[n_iters % len(batches)]`, emit `BATCH`, `_REDUCER_UPDATED` and
`_PBAR_UPDATED`, and increment `n_iters`.  The first argument is the number
of batches left in the current epoch. -/
def runEpochM {α β σ : Type} (reg : REvent → List (Cb α β σ)) :
    Nat → RunState α β σ → List REvent × RunState α β σ
  | 0, s => ([], s)
  | r + 1, s =>
    if s.running then
      let s0 := { s with batch := s.batches.get? (s.n_iters % s.batches.length) }
      let s1 := (emit (reg REvent.batch) s0).1
      let s2 := (emit (reg REvent.reducerUpdated) s1).1
      let s3 := (emit (reg REvent.pbarUpdated) s2).1
      let s4 := { s3 with n_iters := s3.n_iters + 1 }
      let rR := runEpochM reg r s4
      (REvent.batch :: REvent.reducerUpdated :: REvent.pbarUpdated :: rR.1, rR.2)
    else ([], s)

/-- The epoch `while` loop of `Runner.resume` (src/rnnr/runner.py lines
178–191): while `running` and `epoch < max_epoch`, increment `epoch`, emit
`_ETIMER_STARTED`, `EPOCH_STARTED`, `_REDUCER_RESET`, `_PBAR_CREATED`, run
a full epoch over a fresh iteration of `batches`, then emit `_PBAR_CLOSED`,
`_REDUCER_COMPUTED`, `EPOCH_FINISHED`, `_ETIMER_FINISHED`.  The first
argument is loop fuel; `resume` passes `max_epoch - epoch`, which bounds
the number of iterations since each iteration increments `epoch`. -/
def resumeEpochs {α β σ : Type} (reg : REvent → List (Cb α β σ)) :
    Nat → RunState α β σ → List REvent × RunState α β σ
  | 0, s => ([], s)
  | f + 1, s =>
    if s.running ∧ s.epoch < s.max_epoch then
      let s0 := { s with epoch := s.epoch + 1 }
      let s1 := (emit (reg REvent.etimerStarted) s0).1
      let s2 := (emit (reg REvent.epochStarted) s1).1
      let s3 := (emit (reg REvent.reducerReset) s2).1
      let s4 := (emit (reg REvent.pbarCreated) s3).1
      let rE := runEpochM reg s4.batches.length s4
      let s5 := (emit (reg REvent.pbarClosed) rE.2).1
      let s6 := (emit (reg REvent.reducerComputed) s5).1
      let s7 := (emit (reg REvent.epochFinished) s6).1
      let s8 := (emit (reg REvent.etimerFinished) s7).1
      let rR := resumeEpochs reg f s8
      (REvent.etimerStarted :: REvent.epochStarted :: REvent.reducerReset ::
          REvent.pbarCreated :: rE.1 ++ REvent.pbarClosed :: REvent.reducerComputed ::
          REvent.epochFinished :: REvent.etimerFinished :: rR.1, rR.2)
    else ([], s)

/-- `Runner.resume` (src/rnnr/runner.py lines 150–194): set
`running = true`; if the last epoch was left unfinished
(`n_iters % len(batches) ≠ 0`), re-enter it — emit `_ETIMER_STARTED` and
`_PBAR_CREATED`, optionally replay the last in-flight batch's emissions
when `repeat_last_batch` is set, finish the remaining batches, and emit
`_PBAR_CLOSED`, `_REDUCER_COMPUTED`, `EPOCH_FINISHED`, `_ETIMER_FINISHED`;
then run the remaining whole epochs, emit `FINISHED` once, and set
`running = false`.  The trace lists every emission point reached, in
order. -/
def resume {α β σ : Type} (reg : REvent → List (Cb α β σ)) (repeatLast : Bool)
    (sIn : RunState α β σ) : List REvent × RunState α β σ :=
  let s := { sIn with running := true }
  let len := s.batches.length
  let rPre :=
    if s.n_iters % len = 0 then (([] : List REvent), s)
    else
      let s1 := (emit (reg REvent.etimerStarted) s).1
      let s2 := (emit (reg REvent.pbarCreated) s1).1
      let rRep :=
        if repeatLast then
          let a1 := (emit (reg REvent.batch) s2).1
          let a2 := (emit (reg REvent.reducerUpdated) a1).1
          let a3 := (emit (reg REvent.pbarUpdated) a2).1
          ([REvent.batch, REvent.reducerUpdated, REvent.pbarUpdated], a3)
        else ([], s2)
      let rE := runEpochM reg (len - rRep.2.n_iters % len) rRep.2
      let s5 := (emit (reg REvent.pbarClosed) rE.2).1
      let s6 := (emit (reg REvent.reducerComputed) s5).1
      let s7 := (emit (reg REvent.epochFinished) s6).1
      let s8 := (emit (reg REvent.etimerFinished) s7).1
      (REvent.etimerStarted :: REvent.pbarCreated :: rRep.1 ++ rE.1 ++
          [REvent.pbarClosed, REvent.reducerComputed, REvent.epochFinished,
            REvent.etimerFinished], s8)
  let rW := resumeEpochs reg (rPre.2.max_epoch - rPre.2.epoch) rPre.2
  let sF := (emit (reg REvent.finished) rW.2).1
  (rPre.1 ++ rW.1 ++ [REvent.finished], { sF with running := false })

/-- Events emitted by the typed-callback `Runner.run` of
src/rnnr/runner.py: one occurrence per `_run_callbacks_on_*` call. -/
inductive TEv where
  | started
  | epochStarted (e : Nat)
  | batchStarted (e : Nat) (i : Nat)
  | batchFinished (e : Nat) (i : Nat)
  | epochFinished (e : Nat)
  | finished
deriving DecidableEq, Repr

/-- True exactly on the typed runner's `FINISHED` occurrence. -/
def TEv.isFinished : TEv → Bool
  | TEv.finished => true
  | _ => false

/-- An epoch-finished callback of the typed runner
(src/rnnr/runner.py lines 91–95, 221–236): its `__name__`, the number of
positional parameters `inspect.signature` reports, and — for the two-
argument form `cb(epoch, stop)` — whether it invokes the provided stop
function at a given epoch.  One-argument callbacks receive no stop
function. -/
structure EFCb where
  name : String
  nargs : Nat
  stops : Nat → Bool

/-- `Runner._run_callbacks_on_batch_started` (src/rnnr/runner.py lines
210–213): each batch-started callback is applied to the value returned by
the previous one, and the final value is returned. -/
def runCbsOnBatchStarted {α : Type} (cbs : List (Nat → Nat → α → α)) (e bi : Nat)
    (b : α) : α :=
  match cbs with
  | [] => b
  | cb :: rest => runCbsOnBatchStarted rest e bi (cb e bi b)

/-- `Runner._run_callbacks_on_epoch_finished` (src/rnnr/runner.py lines
221–236): walk the registered callbacks while the runner is not stopped;
a two-argument callback is called as `cb(epoch, stop)` and may stop the
runner, a one-argument callback as `cb(epoch)`, and any other arity raises
`TypeError` with a signature-mismatch message.  Returns the stop flag after
the dispatch and the number of callbacks invoked. -/
def runCbsOnEpochFinished (cbs : List EFCb) (e : Nat) (stopped : Bool) :
    Except String (Bool × Nat) :=
  match cbs with
  | [] => Except.ok (stopped, 0)
  | cb :: rest =>
    if stopped then Except.ok (stopped, 0)
    else if cb.nargs = 2 then
      match runCbsOnEpochFinished rest e (cb.stops e) with
      | Except.error m => Except.error m
      | Except.ok r => Except.ok (r.1, r.2 + 1)
    else if cb.nargs = 1 then
      match runCbsOnEpochFinished rest e stopped with
      | Except.error m => Except.error m
      | Except.ok r => Except.ok (r.1, r.2 + 1)
    else
      Except.error
        ("expected " ++ cb.name ++ "() to accept 1 or 2 arguments but got " ++
          toString cb.nargs)

/-- A typed-callback runner (src/rnnr/runner.py `Runner.__init__`): the
batch processor `on_batch(epoch, batch_idx, batch)`, the `max_epoch` bound,
and the registered callbacks whose behavior the loop can observe — the
batch-started transformations and the epoch-finished callbacks (the
started, epoch-started, batch-finished and finished callbacks return
nothing and cannot influence the loop). -/
structure TRunner (α β : Type) where
  on_batch : Nat → Nat → α → β
  max_epoch : Nat
  bsCbs : List (Nat → Nat → α → α)
  efCbs : List EFCb

/-- One recorded invocation of the typed runner's batch processor: the
epoch, the batch index, the batch value drawn from `batches`, the value the
processor actually received after the batch-started chain, and the output
it produced. -/
structure ProcCall (α β : Type) where
  pepoch : Nat
  pidx : Nat
  porig : α
  precv : α
  pout : β
deriving Repr

/-- The batch `for` loop of the typed `Runner.run` (src/rnnr/runner.py
lines 141–145): for every batch, emit `BATCH_STARTED` (chaining the
batch-started callbacks over the batch value), invoke `on_batch` on the
chained value, and emit `BATCH_FINISHED`.  No stop check occurs inside this
loop.  Returns the emitted events and the recorded processor calls. -/
def batchesT {α β : Type} (R : TRunner α β) (e : Nat) :
    Nat → List α → List TEv × List (ProcCall α β)
  | _, [] => ([], [])
  | j, b :: rest =>
    let b2 := runCbsOnBatchStarted R.bsCbs e j b
    let out := R.on_batch e j b2
    let r := batchesT R e (j + 1) rest
    (TEv.batchStarted e j :: TEv.batchFinished e j :: r.1,
      ⟨e, j, b, b2, out⟩ :: r.2)

/-- The epoch `while` loop of the typed `Runner.run` (src/rnnr/runner.py
lines 137–147): while not stopped and epochs remain, emit `EPOCH_STARTED`,
run the batch loop, then dispatch the epoch-finished callbacks (which may
stop the runner or raise on an arity mismatch).  The first argument counts
the remaining epochs, the second is the 1-based epoch number; the loop is
only entered when the runner is not stopped. -/
def epochsT {α β : Type} (R : TRunner α β) (bs : List α) :
    Nat → Nat → Except String (List TEv × List (ProcCall α β))
  | 0, _ => Except.ok ([], [])
  | n + 1, e =>
    let rB := batchesT R e 0 bs
    match runCbsOnEpochFinished R.efCbs e false with
    | Except.error m => Except.error m
    | Except.ok r =>
      if r.1 then
        Except.ok (TEv.epochStarted e :: rB.1 ++ [TEv.epochFinished e], rB.2)
      else
        match epochsT R bs n (e + 1) with
        | Except.error m => Except.error m
        | Except.ok rR =>
          Except.ok (TEv.epochStarted e :: rB.1 ++ TEv.epochFinished e :: rR.1,
            rB.2 ++ rR.2)

/-- The typed `Runner.run(batches)` (src/rnnr/runner.py lines 129–148):
emit `STARTED` (whose first callback, `Runner._reset`, clears the stop
flag), run up to `max_epoch` epochs, and emit `FINISHED` unconditionally at
the very end; a `TypeError` raised by the epoch-finished dispatch
propagates to the caller instead. -/
def trun {α β : Type} (R : TRunner α β) (bs : List α) :
    Except String (List TEv × List (ProcCall α β)) :=
  match epochsT R bs R.max_epoch 1 with
  | Except.error m => Except.error m
  | Except.ok r => Except.ok (TEv.started :: r.1 ++ [TEv.finished], r.2)

/-- The retention state of `Checkpointer` (src/rnnr/handlers.py): the
number of times the handler has been called and the queue of the call
numbers whose checkpoint files are currently retained, oldest first. -/
structure CkptState where
  n_calls : Nat
  deque : List Nat
deriving DecidableEq, Repr

/-- A fresh `Checkpointer`: no calls yet, nothing retained. -/
def ckptInit : CkptState := { n_calls := 0, deque := [] }

/-- `Checkpointer.__call__` (src/rnnr/handlers.py lines 217–225 together
with `_should_delete` lines 243–244 and `_delete` lines 253–258): increment
the call counter; if the checkpoint is to be saved (`_should_save`, whose
outcome depends on the tracked value in the state and is passed here as
`shouldSave`), append the call number to the retention queue; then, if the
queue now exceeds `max_saved`, pop its front — deleting the files of the
oldest retained checkpoint. -/
def ckptCall (maxSaved : Nat) (shouldSave : Bool) (c : CkptState) : CkptState :=
  let n := c.n_calls + 1
  let dq := if shouldSave then c.deque ++ [n] else c.deque
  let dq2 := if maxSaved < dq.length then dq.tail else dq
  { n_calls := n, deque := dq2 }

/-- A sample dict-state callback that keeps the runner running. -/
def exCb : Cb Nat Nat Nat := fun s => (true, s.user)

/-- A sample dict-state callback that requests a stop. -/
def exStopCb : Cb Nat Nat Nat := fun s => (false, s.user)

/-- A sample run state: running, two epochs of `[3, 5]`, nothing processed
yet. -/
def exState : RunState Nat Nat Nat :=
  { running := true, epoch := 0, max_epoch := 2, n_iters := 0, batches := [3, 5],
    batch := none, output := none, user := 0 }

/-- A sample spec runner with no callbacks. -/
def exRunnerPlain : SpecRunner Nat Nat Nat :=
  { proc := fun b => b + 1, startedCbs := [], epochStartedCbs := [],
    batchStartedCbs := [], batchFinishedCbs := [], epochFinishedCbs := [],
    finishedCbs := [] }

/-- A sample spec runner whose epoch-started callback requests a stop. -/
def exRunnerStopES : SpecRunner Nat Nat Nat :=
  { exRunnerPlain with epochStartedCbs := [exStopCb] }

/-- A sample spec runner whose batch-finished callback requests a stop. -/
def exRunnerStopBF : SpecRunner Nat Nat Nat :=
  { exRunnerPlain with batchFinishedCbs := [exStopCb] }

/-- A sample typed runner with no callbacks and an identity processor. -/
def exTRunner : TRunner Nat Nat :=
  { on_batch := fun _ _ b => b, max_epoch := 1, bsCbs := [], efCbs := [] }

/-- A sample typed runner with two batch-started transformations, as in the
repository's own `test_run_with_callbacks`: the first adds one, the second
squares. -/
def exTRunnerChain : TRunner Nat Nat :=
  { on_batch := fun _ _ b => b, max_epoch := 1,
    bsCbs := [fun _ _ b => b + 1, fun _ _ b => b * b], efCbs := [] }

/-- A sample epoch-finished callback with a valid one-argument signature. -/
def exEFok : EFCb := { name := "good", nargs := 1, stops := fun _ => false }

/-- A sample epoch-finished callback with an invalid zero-argument
signature. -/
def exEFbad : EFCb := { name := "bad", nargs := 0, stops := fun _ => false }

/-- A sample epoch-finished callback that calls the stop function. -/
def exEFstop : EFCb := { name := "stopper", nargs := 2, stops := fun _ => true }

-- Basic lemmas about `emit`.

/-- The positions of the invoked callbacks form the in-order prefix
`0, 1, …, k-1` of the registration list. -/
theorem emit_invoked_range {α β σ : Type} (cbs : List (Cb α β σ))
    (s : RunState α β σ) : (emit cbs s).2 = List.range (emit cbs s).2.length := by
  induction cbs generalizing s with
  | nil => simp [emit]
  | cons cb rest ih =>
    by_cases h : s.running
    · simp only [emit, h, if_true]
      rw [ih (applyCb cb s)]
      simp [List.range_succ_eq_map]
    · simp [emit, h]

/-- A dispatch that starts with `running = false` invokes nothing and leaves
the state unchanged. -/
theorem emit_not_running {α β σ : Type} (cbs : List (Cb α β σ))
    (s : RunState α β σ) (h : s.running = false) : emit cbs s = (s, []) := by
  cases cbs with
  | nil => rfl
  | cons cb rest => simp [emit, h]

/-- `emit` never touches the loop-owned fields of the state. -/
theorem emit_fields {α β σ : Type} (cbs : List (Cb α β σ)) (s : RunState α β σ) :
    (emit cbs s).1.epoch = s.epoch ∧ (emit cbs s).1.max_epoch = s.max_epoch ∧
    (emit cbs s).1.n_iters = s.n_iters ∧ (emit cbs s).1.batches = s.batches ∧
    (emit cbs s).1.batch = s.batch ∧ (emit cbs s).1.output = s.output := by
  induction cbs generalizing s with
  | nil => exact ⟨rfl, rfl, rfl, rfl, rfl, rfl⟩
  | cons cb rest ih =>
    by_cases h : s.running
    · simpa [emit, h, applyCb] using ih (applyCb cb s)
    · simp [emit, h]

/-- If no callback of the list requests a stop, dispatching from a running
state leaves the runner running. -/
theorem emit_noStop {α β σ : Type} (cbs : List (Cb α β σ)) (s : RunState α β σ)
    (hcb : ∀ cb ∈ cbs, NoStopCb cb) (hs : s.running = true) :
    (emit cbs s).1.running = true := by
  induction cbs generalizing s with
  | nil => exact hs
  | cons cb rest ih =>
    have h1 : (applyCb cb s).running = true := hcb cb (List.mem_cons_self cb rest) s
    simp only [emit, hs, if_true]
    exact ih (applyCb cb s) (fun c hc => hcb c (List.mem_cons_of_mem cb hc)) h1

/-- If no callback requests a stop, a dispatch from a running state invokes
every registered callback, in registration order. -/
theorem emit_noStop_all {α β σ : Type} (cbs : List (Cb α β σ)) (s : RunState α β σ)
    (hcb : ∀ cb ∈ cbs, NoStopCb cb) (hs : s.running = true) :
    (emit cbs s).2 = List.range cbs.length := by
  induction cbs generalizing s with
  | nil => simp [emit]
  | cons cb rest ih =>
    have h1 : (applyCb cb s).running = true := hcb cb (List.mem_cons_self cb rest) s
    simp only [emit, hs, if_true]
    rw [ih (applyCb cb s) (fun c hc => hcb c (List.mem_cons_of_mem cb hc)) h1]
    simp [List.range_succ_eq_map]

/-- Claim C6: for every event, dispatch order equals registration order —
the callbacks `Runner._emit` invokes form the in-order prefix
`0, 1, …, k-1` of the registered list (so a callback registered earlier is
always invoked before a later one, and, when nothing requests a stop, every
registered callback is invoked in registration order) — and registering a
sequence of callbacks with one `Runner.on` call equals registering them one
at a time in the same relative order. -/
theorem claim_C6 :
    (∀ (α β σ : Type) (cbs : List (Cb α β σ)) (s : RunState α β σ),
      (emit cbs s).2 = List.range (emit cbs s).2.length) ∧
    (∀ (α β σ : Type) (cbs : List (Cb α β σ)) (s : RunState α β σ),
      (∀ cb ∈ cbs, NoStopCb cb) → s.running = true →
      (emit cbs s).2 = List.range cbs.length) ∧
    (∀ (γ : Type) (reg : REvent → List γ) (ev : REvent) (cbs : List γ),
      onMany reg ev cbs = cbs.foldl (fun r c => onSingle r ev c) reg) := by
  refine ⟨fun α β σ cbs s => emit_invoked_range cbs s,
    fun α β σ cbs s hcb hs => emit_noStop_all cbs s hcb hs, fun γ reg ev cbs => ?_⟩
  induction cbs generalizing reg with
  | nil =>
    funext e
    by_cases h : e = ev <;> simp [onMany, h]
  | cons c cs ih =>
    have hstep : onMany reg ev (c :: cs) = onMany (onSingle reg ev c) ev cs := by
      funext e
      by_cases h : e = ev <;> simp [onMany, onSingle, h]
    rw [hstep, ih (onSingle reg ev c)]
    rfl

/-- Witness for C6: both dispatch-order statements evaluated on a concrete
two-callback dispatch. -/
theorem claim_C6_witness :
    (emit [exCb, exCb] exState).2 =
      List.range (emit [exCb, exCb] exState).2.length ∧
    (emit [exCb, exCb] exState).2 = List.range 2 := by
  constructor
  · exact claim_C6.1 Nat Nat Nat [exCb, exCb] exState
  · refine claim_C6.2.1 Nat Nat Nat [exCb, exCb] exState ?_ rfl
    intro cb hcb
    rcases List.mem_cons.mp hcb with h | h
    · subst h; intro s; rfl
    · rcases List.mem_cons.mp h with h2 | h2
      · subst h2; intro s; rfl
      · cases h2

/-- Claim C9: `Runner.on(event)` used as a decorator appends the callback
to the event's list, leaves every other event's list untouched, and returns
the callback itself unchanged; the typed `Runner.on_started` does the
same on its backing list. -/
theorem claim_C9 :
    ∀ (γ : Type) (reg : REvent → List γ) (ev : REvent) (cb : γ),
      (onDecorator reg ev cb).2 = cb ∧
      (onDecorator reg ev cb).1 ev = reg ev ++ [cb] ∧
      (∀ e : REvent, e ≠ ev → (onDecorator reg ev cb).1 e = reg e) ∧
      (∀ (δ : Type) (cbs : List δ) (c : δ), onStarted cbs c = (cbs ++ [c], c)) := by
  intro γ reg ev cb
  refine ⟨rfl, ?_, ?_, fun δ cbs c => rfl⟩
  · simp [onDecorator, onSingle]
  · intro e he
    simp [onDecorator, onSingle, he]

/-- Witness for C9: the decorator registration evaluated on a concrete
registry at a concrete event. -/
theorem claim_C9_witness :
    (onDecorator (fun _ : REvent => ([] : List Nat)) REvent.started 7).2 = 7 ∧
    (onDecorator (fun _ : REvent => ([] : List Nat)) REvent.started 7).1
        REvent.started = [] ++ [7] ∧
    (onDecorator (fun _ : REvent => ([] : List Nat)) REvent.started 7).1
        REvent.finished = [] := by
  refine ⟨(claim_C9 Nat (fun _ => []) REvent.started 7).1,
    (claim_C9 Nat (fun _ => []) REvent.started 7).2.1,
    (claim_C9 Nat (fun _ => []) REvent.started 7).2.2.1 REvent.finished (by decide)⟩

/-- Claim C10: `Runner._emit` never invokes a callback while
`state['running']` is false — an emission reaching a non-running state
dispatches zero callbacks, and a callback that sets `running` to false
mid-dispatch makes all remaining callbacks of that same event be skipped;
`Runner._run_callbacks_on_epoch_finished` makes the same abort-remaining
choice through the `_stopped` flag. -/
theorem claim_C10 :
    (∀ (α β σ : Type) (cbs : List (Cb α β σ)) (s : RunState α β σ),
      s.running = false → emit cbs s = (s, [])) ∧
    (∀ (α β σ : Type) (cb : Cb α β σ) (cbs : List (Cb α β σ)) (s : RunState α β σ),
      s.running = true → (applyCb cb s).running = false →
      (emit (cb :: cbs) s).2 = [0]) ∧
    (∀ (cbs : List EFCb) (e : Nat),
      runCbsOnEpochFinished cbs e true = Except.ok (true, 0)) ∧
    (∀ (cb : EFCb) (cbs : List EFCb) (e : Nat),
      cb.nargs = 2 → cb.stops e = true →
      runCbsOnEpochFinished (cb :: cbs) e false = Except.ok (true, 1)) := by
  have hef : ∀ (cbs : List EFCb) (e : Nat),
      runCbsOnEpochFinished cbs e true = Except.ok (true, 0) := by
    intro cbs e
    cases cbs with
    | nil => rfl
    | cons cb rest => simp [runCbsOnEpochFinished]
  refine ⟨fun α β σ cbs s h => emit_not_running cbs s h, ?_, hef, ?_⟩
  · intro α β σ cb cbs s hs hstop
    simp only [emit, hs, if_true]
    rw [emit_not_running cbs (applyCb cb s) hstop]
    rfl
  · intro cb cbs e h2 hst
    simp [runCbsOnEpochFinished, h2, hst, hef]

/-- Witness for C10: the dispatch statements evaluated at concrete states
and callbacks — a non-running state dispatches nothing, a stopping callback
aborts the rest of its dispatch, an already-stopped epoch-finished dispatch
invokes nothing, and a stopping epoch-finished callback is the only one
invoked. -/
theorem claim_C10_witness :
    emit [exCb, exCb] { exState with running := false } =
      ({ exState with running := false }, []) ∧
    (emit [exStopCb, exCb, exCb] exState).2 = [0] ∧
    runCbsOnEpochFinished [exEFok, exEFok] 1 true = Except.ok (true, 0) ∧
    runCbsOnEpochFinished [exEFstop, exEFok, exEFok] 1 false =
      Except.ok (true, 1) := by
  refine ⟨claim_C10.1 Nat Nat Nat [exCb, exCb] _ rfl,
    claim_C10.2.1 Nat Nat Nat exStopCb [exCb, exCb] exState rfl rfl,
    claim_C10.2.2.1 [exEFok, exEFok] 1,
    claim_C10.2.2.2 exEFstop [exEFok, exEFok] 1 rfl rfl⟩

-- Lemmas about the spec-modelled dict-state run.

/-- A batch loop entered without `running` does nothing. -/
theorem batchLoop_not_running {α β σ : Type} (R : SpecRunner α β σ) (e i : Nat)
    (bs : List α) (s : RunState α β σ) (h : s.running = false) :
    batchLoop R e i bs s = ([], [], s) := by
  cases bs with
  | nil => rfl
  | cons b rest => simp [batchLoop, h]

/-- An epoch loop entered without `running` does nothing. -/
theorem epochLoop_not_running {α β σ : Type} (R : SpecRunner α β σ) (bs : List α)
    (n e : Nat) (s : RunState α β σ) (h : s.running = false) :
    epochLoop R bs n e s = ([], [], s) := by
  cases n with
  | zero => rfl
  | succ m => simp [epochLoop, h]

/-- The batch loop never emits `FINISHED`. -/
theorem batchLoop_no_finished {α β σ : Type} (R : SpecRunner α β σ) (e : Nat) :
    ∀ (i : Nat) (bs : List α) (s : RunState α β σ),
    (batchLoop R e i bs s).1.countP SEvent.isFinished = 0 := by
  intro i bs
  induction bs generalizing i with
  | nil => intro s; rfl
  | cons b rest ih =>
    intro s
    by_cases h : s.running
    · simp only [batchLoop, h, if_true]
      simp [List.countP_cons, SEvent.isFinished, ih (i + 1)]
    · simp [batchLoop, h]

/-- The epoch loop never emits `FINISHED`. -/
theorem epochLoop_no_finished {α β σ : Type} (R : SpecRunner α β σ) (bs : List α) :
    ∀ (n e : Nat) (s : RunState α β σ),
    (epochLoop R bs n e s).1.countP SEvent.isFinished = 0 := by
  intro n
  induction n with
  | zero => intro e s; rfl
  | succ m ih =>
    intro e s
    by_cases h : s.running = true
    · simp only [epochLoop]
      rw [if_pos h]
      by_cases h1 : (emit R.epochStartedCbs { s with epoch := e }).1.running = true
      · rw [if_pos h1]
        simp [List.countP_cons, List.countP_append, SEvent.isFinished,
          batchLoop_no_finished, ih]
      · rw [if_neg h1]
        simp [List.countP_cons, List.countP_append, SEvent.isFinished, ih]
    · simp [epochLoop, h]

/-- The last element of `x :: l ++ [y]` is `y`. -/
theorem getLast_cons_concat {γ : Type} (x y : γ) (l : List γ) :
    (x :: (l ++ [y])).getLast? = some y := by
  rw [← List.cons_append, List.getLast?_append_cons (x :: l) y []]
  rfl

/-- `srun` emits `FINISHED` exactly once, and it is the last event of the
trace. -/
theorem srun_finished_once {α β σ : Type} (R : SpecRunner α β σ) (bs : List α)
    (M : Nat) (u0 : σ) :
    (srun R bs M u0).1.countP SEvent.isFinished = 1 ∧
    (srun R bs M u0).1.getLast? = some SEvent.finished := by
  constructor
  · simp only [srun]
    simp [List.countP_cons, List.countP_append, SEvent.isFinished,
      epochLoop_no_finished]
  · exact getLast_cons_concat _ _ _

/-- `emitBS` never touches the loop-owned counters of the state (it
updates `running`, `user` and `batch` only). -/
theorem emitBS_fields {α β σ : Type} (cbs : List (BCb α β σ)) (s : RunState α β σ)
    (b : α) :
    (emitBS cbs s b).1.epoch = s.epoch ∧ (emitBS cbs s b).1.max_epoch = s.max_epoch ∧
    (emitBS cbs s b).1.n_iters = s.n_iters ∧
    (emitBS cbs s b).1.batches = s.batches ∧
    (emitBS cbs s b).1.output = s.output := by
  induction cbs generalizing s b with
  | nil => exact ⟨rfl, rfl, rfl, rfl, rfl⟩
  | cons cb rest ih =>
    by_cases h : s.running
    · simp only [emitBS, h, if_true]
      exact ih _ _
    · simp [emitBS, h]

/-- If no batch-started callback requests a stop, the batch-started
dispatch leaves the runner running. -/
theorem emitBS_noStop {α β σ : Type} (cbs : List (BCb α β σ)) (s : RunState α β σ)
    (b : α) (hcb : ∀ cb ∈ cbs, NoStopB cb) (hs : s.running = true) :
    (emitBS cbs s b).1.running = true := by
  induction cbs generalizing s b with
  | nil => exact hs
  | cons cb rest ih =>
    simp only [emitBS, hs, if_true]
    exact ih _ _ (fun c hc => hcb c (List.mem_cons_of_mem cb hc))
      (hcb cb (List.mem_cons_self cb rest) s)

/-- If the batch-level callbacks never request a stop, one batch body
keeps the runner running and increments `n_iters` by one. -/
theorem batchStep_noStop {α β σ : Type} (R : SpecRunner α β σ) (b : α)
    (s : RunState α β σ) (hbs : ∀ cb ∈ R.batchStartedCbs, NoStopB cb)
    (hbf : ∀ cb ∈ R.batchFinishedCbs, NoStopCb cb) (hs : s.running = true) :
    (batchStep R b s).1.running = true ∧
    (batchStep R b s).1.n_iters = s.n_iters + 1 := by
  have h0 : ({ s with batch := some b } : RunState α β σ).running = true := hs
  have h1r := emitBS_noStop R.batchStartedCbs { s with batch := some b } b hbs h0
  have h1f := emitBS_fields R.batchStartedCbs { s with batch := some b } b
  simp only [batchStep]
  constructor
  · exact emit_noStop R.batchFinishedCbs _ hbf h1r
  · have h2f := emit_fields R.batchFinishedCbs
      { (emitBS R.batchStartedCbs { s with batch := some b } b).1 with
        output := some (R.proc (emitBS R.batchStartedCbs { s with batch := some b } b).2) }
    have := h2f.2.2.1
    simp only [this]
    exact congrArg (fun x => x + 1) h1f.2.2.1

/-- If no callback at all requests a stop, the batch loop runs every batch:
it emits one `BATCH_STARTED`/`BATCH_FINISHED` pair per batch and no epoch
events, keeps the runner running, and adds the number of batches to
`n_iters`. -/
theorem batchLoop_noStop {α β σ : Type} (R : SpecRunner α β σ) (e : Nat)
    (hbs : ∀ cb ∈ R.batchStartedCbs, NoStopB cb)
    (hbf : ∀ cb ∈ R.batchFinishedCbs, NoStopCb cb) :
    ∀ (bs : List α) (i : Nat) (s : RunState α β σ), s.running = true →
    (batchLoop R e i bs s).1.countP SEvent.isBatchStarted = bs.length ∧
    (batchLoop R e i bs s).1.countP SEvent.isBatchFinished = bs.length ∧
    (batchLoop R e i bs s).1.countP SEvent.isEpochStarted = 0 ∧
    (batchLoop R e i bs s).1.countP SEvent.isEpochFinished = 0 ∧
    (batchLoop R e i bs s).2.2.running = true ∧
    (batchLoop R e i bs s).2.2.n_iters = s.n_iters + bs.length := by
  intro bs
  induction bs with
  | nil =>
    intro i s hs
    exact ⟨rfl, rfl, rfl, rfl, hs, rfl⟩
  | cons b rest ih =>
    intro i s hs
    have hstep := batchStep_noStop R b s hbs hbf hs
    have hrec := ih (i + 1) (batchStep R b s).1 hstep.1
    simp only [batchLoop, hs, if_true]
    refine ⟨?_, ?_, ?_, ?_, hrec.2.2.2.2.1, ?_⟩
    · simp [List.countP_cons, SEvent.isBatchStarted, hrec.1]
    · simp [List.countP_cons, SEvent.isBatchFinished, hrec.2.1]
    · simp [List.countP_cons, SEvent.isEpochStarted, hrec.2.2.1]
    · simp [List.countP_cons, SEvent.isEpochFinished, hrec.2.2.2.1]
    · rw [hrec.2.2.2.2.2, hstep.2]
      simp [List.length_cons]
      omega

/-- If no callback requests a stop, the epoch loop runs all its epochs:
per remaining epoch one `EPOCH_STARTED`/`EPOCH_FINISHED` pair and one
batch-event pair per batch, with `n_iters` growing by epochs × batches. -/
theorem epochLoop_noStop {α β σ : Type} (R : SpecRunner α β σ) (bs : List α)
    (hNS : NoStop R) :
    ∀ (n e : Nat) (s : RunState α β σ), s.running = true →
    (epochLoop R bs n e s).1.countP SEvent.isEpochStarted = n ∧
    (epochLoop R bs n e s).1.countP SEvent.isEpochFinished = n ∧
    (epochLoop R bs n e s).1.countP SEvent.isBatchStarted = n * bs.length ∧
    (epochLoop R bs n e s).1.countP SEvent.isBatchFinished = n * bs.length ∧
    (epochLoop R bs n e s).2.2.running = true ∧
    (epochLoop R bs n e s).2.2.n_iters = s.n_iters + n * bs.length := by
  intro n
  induction n with
  | zero =>
    intro e s hs
    refine ⟨rfl, rfl, ?_, ?_, hs, ?_⟩ <;> simp [epochLoop]
  | succ m ih =>
    intro e s hs
    have h1r : (emit R.epochStartedCbs { s with epoch := e }).1.running = true :=
      emit_noStop _ _ hNS.2.1 hs
    have h1f := emit_fields R.epochStartedCbs { s with epoch := e }
    have hB := batchLoop_noStop R e hNS.2.2.1 hNS.2.2.2.1 bs 0
      (emit R.epochStartedCbs { s with epoch := e }).1 h1r
    have h3r : (emit R.epochFinishedCbs
        { (batchLoop R e 0 bs (emit R.epochStartedCbs { s with epoch := e }).1).2.2 with
          batch := none, output := none }).1.running = true :=
      emit_noStop _ _ hNS.2.2.2.2.1 hB.2.2.2.2.1
    have h3f := emit_fields R.epochFinishedCbs
      { (batchLoop R e 0 bs (emit R.epochStartedCbs { s with epoch := e }).1).2.2 with
        batch := none, output := none }
    have hrec := ih (e + 1) _ h3r
    simp only [epochLoop]
    rw [if_pos hs, if_pos h1r]
    refine ⟨?_, ?_, ?_, ?_, hrec.2.2.2.2.1, ?_⟩
    · simp [List.countP_cons, List.countP_append, SEvent.isEpochStarted,
        hB.2.2.1, hrec.1]
    · simp [List.countP_cons, List.countP_append, SEvent.isEpochFinished,
        hB.2.2.2.1, hrec.2.1]
    · simp only [List.countP_cons, List.countP_append, SEvent.isBatchStarted,
        hB.1, hrec.2.2.1]
      rw [Nat.succ_mul]
      simp [SEvent.isBatchStarted]
      omega
    · simp only [List.countP_cons, List.countP_append, SEvent.isBatchFinished,
        hB.2.1, hrec.2.2.2.1]
      rw [Nat.succ_mul]
      simp [SEvent.isBatchFinished]
      omega
    · rw [hrec.2.2.2.2.2]
      have hmid : (emit R.epochFinishedCbs
          { (batchLoop R e 0 bs (emit R.epochStartedCbs { s with epoch := e }).1).2.2 with
            batch := none, output := none }).1.n_iters =
          (batchLoop R e 0 bs
            (emit R.epochStartedCbs { s with epoch := e }).1).2.2.n_iters :=
        h3f.2.2.1
      rw [hmid, hB.2.2.2.2.2]
      have hmid2 : (emit R.epochStartedCbs { s with epoch := e }).1.n_iters =
          s.n_iters := h1f.2.2.1
      rw [hmid2, Nat.succ_mul]
      omega

/-- Claim C2: if a stop is requested while batch `k` of epoch `e` is being
processed (the batch body entered running leaves `running` false), then
`BATCH_FINISHED` still fires for batch `k` and no batch `k + 1` is started
(the batch loop's remaining trace is exactly batch `k`'s two events); an
epoch loop reached without `running` starts no further epoch; every epoch
that is entered still emits its `EPOCH_FINISHED`; and `FINISHED` fires
exactly once, at the very end of the run. -/
theorem claim_C2 :
    ∀ (α β σ : Type) (R : SpecRunner α β σ) (e k : Nat) (b : α)
      (rest bs2 : List α) (s : RunState α β σ),
    s.running = true → (batchStep R b s).1.running = false →
    (batchLoop R e k (b :: rest) s =
      ([SEvent.batchStarted e k, SEvent.batchFinished e k],
        [(e, k, (batchStep R b s).2)], (batchStep R b s).1)) ∧
    (∀ (n e2 : Nat) (t : RunState α β σ), t.running = false →
      epochLoop R bs2 n e2 t = ([], [], t)) ∧
    (∀ (m : Nat) (sE : RunState α β σ), sE.running = true →
      SEvent.epochFinished e ∈ (epochLoop R bs2 (m + 1) e sE).1) ∧
    (∀ (M : Nat) (u0 : σ),
      (srun R bs2 M u0).1.countP SEvent.isFinished = 1 ∧
      (srun R bs2 M u0).1.getLast? = some SEvent.finished) := by
  intro α β σ R e k b rest bs2 s hrun hstop
  refine ⟨?_, ?_, ?_, fun M u0 => srun_finished_once R bs2 M u0⟩
  · simp only [batchLoop]
    rw [if_pos hrun, batchLoop_not_running R e (k + 1) rest (batchStep R b s).1 hstop]
  · intro n e2 t ht
    exact epochLoop_not_running R bs2 n e2 t ht
  · intro m sE hsE
    simp only [epochLoop]
    rw [if_pos hsE]
    simp

/-- Witness for C2: a runner whose batch-finished callback requests a stop
during batch 0 of epoch 1; the batch loop trace is exactly batch 0's two
events, epoch 1 still gets its `EPOCH_FINISHED`, and a full run emits
`FINISHED` once at the very end. -/
theorem claim_C2_witness :
    batchLoop exRunnerStopBF 1 0 [3, 5] exState =
      ([SEvent.batchStarted 1 0, SEvent.batchFinished 1 0],
        [(1, 0, (batchStep exRunnerStopBF 3 exState).2)],
        (batchStep exRunnerStopBF 3 exState).1) ∧
    SEvent.epochFinished 1 ∈ (epochLoop exRunnerStopBF [3, 5] 1 1 exState).1 ∧
    (srun exRunnerStopBF [3, 5] 2 0).1.countP SEvent.isFinished = 1 ∧
    (srun exRunnerStopBF [3, 5] 2 0).1.getLast? = some SEvent.finished := by
  have h := claim_C2 Nat Nat Nat exRunnerStopBF 1 0 3 [5] [3, 5] exState rfl (by decide)
  exact ⟨h.1, h.2.2.1 0 exState rfl, (h.2.2.2 2 0).1, (h.2.2.2 2 0).2⟩

/-- Claim C3: if a stop is requested during the `EPOCH_STARTED` dispatch of
an epoch, the batch loop of that epoch is skipped entirely — the epoch's
trace is exactly `EPOCH_STARTED` followed by `EPOCH_FINISHED`, with no
batch event and no batch handed to the processor — yet `EPOCH_FINISHED` is
still emitted for it. -/
theorem claim_C3 :
    ∀ (α β σ : Type) (R : SpecRunner α β σ) (bs : List α) (n e : Nat)
      (s : RunState α β σ),
    s.running = true →
    (emit R.epochStartedCbs { s with epoch := e }).1.running = false →
    (epochLoop R bs (n + 1) e s).1 =
      [SEvent.epochStarted e, SEvent.epochFinished e] ∧
    (epochLoop R bs (n + 1) e s).2.1 = [] := by
  intro α β σ R bs n e s hrun hstop
  have h3 : (emit R.epochFinishedCbs
      { (emit R.epochStartedCbs { s with epoch := e }).1 with
        batch := none, output := none }).1.running = false := by
    have hent : ({ (emit R.epochStartedCbs { s with epoch := e }).1 with
        batch := none, output := none } : RunState α β σ).running = false := hstop
    rw [emit_not_running _ _ hent]
    exact hent
  constructor
  · simp only [epochLoop]
    rw [if_pos hrun, if_neg (by simp [hstop]),
      epochLoop_not_running R bs n (e + 1) _ h3]
    rfl
  · simp only [epochLoop]
    rw [if_pos hrun, if_neg (by simp [hstop]),
      epochLoop_not_running R bs n (e + 1) _ h3]
    rfl

/-- Witness for C3: a runner whose epoch-started callback requests a stop;
epoch 1 emits exactly `EPOCH_STARTED` then `EPOCH_FINISHED`, with no batch
events and no processed batch. -/
theorem claim_C3_witness :
    (epochLoop exRunnerStopES [3, 5] 1 1 exState).1 =
      [SEvent.epochStarted 1, SEvent.epochFinished 1] ∧
    (epochLoop exRunnerStopES [3, 5] 1 1 exState).2.1 = [] := by
  exact claim_C3 Nat Nat Nat exRunnerStopES [3, 5] 0 1 exState rfl (by decide)

/-- Claim C4: for every `max_epoch = M ≥ 1` and batch list of length `N`,
a run in which no callback requests a stop emits exactly `M`
`EPOCH_STARTED`/`EPOCH_FINISHED` pairs and exactly `M * N`
`BATCH_STARTED`/`BATCH_FINISHED` pairs, and the final state's `n_iters`
equals `M * N`. -/
theorem claim_C4 :
    ∀ (α β σ : Type) (R : SpecRunner α β σ) (bs : List α) (M : Nat) (u0 : σ),
    NoStop R → 1 ≤ M →
    (srun R bs M u0).1.countP SEvent.isEpochStarted = M ∧
    (srun R bs M u0).1.countP SEvent.isEpochFinished = M ∧
    (srun R bs M u0).1.countP SEvent.isBatchStarted = M * bs.length ∧
    (srun R bs M u0).1.countP SEvent.isBatchFinished = M * bs.length ∧
    (srun R bs M u0).2.2.n_iters = M * bs.length := by
  intro α β σ R bs M u0 hNS _hM
  have hs0 : (RunState.mk true 0 M 0 bs none none u0 : RunState α β σ).running =
      true := rfl
  have h1r := emit_noStop R.startedCbs _ hNS.1 hs0
  have h1f := emit_fields R.startedCbs
    (RunState.mk true 0 M 0 bs none none u0 : RunState α β σ)
  have hE := epochLoop_noStop R bs hNS M 1 _ h1r
  have hn : (epochLoop R bs M 1
      (emit R.startedCbs (RunState.mk true 0 M 0 bs none none u0)).1).2.2.n_iters =
      M * bs.length := by
    rw [hE.2.2.2.2.2, h1f.2.2.1]
    simp
  refine ⟨?_, ?_, ?_, ?_, ?_⟩
  · simp only [srun]
    simp [List.countP_cons, List.countP_append, SEvent.isEpochStarted, hE.1]
  · simp only [srun]
    simp [List.countP_cons, List.countP_append, SEvent.isEpochFinished, hE.2.1]
  · simp only [srun]
    simp [List.countP_cons, List.countP_append, SEvent.isBatchStarted, hE.2.2.1]
  · simp only [srun]
    simp [List.countP_cons, List.countP_append, SEvent.isBatchFinished,
      hE.2.2.2.1]
  · exact Eq.trans ((emit_fields R.finishedCbs _).2.2.1) hn

/-- Witness for C4: the stop-free sample runner over two epochs of the
two-batch list `[3, 5]` emits two epoch pairs and four batch pairs and ends
with `n_iters = 4`. -/
theorem claim_C4_witness :
    (srun exRunnerPlain [3, 5] 2 0).1.countP SEvent.isEpochStarted = 2 ∧
    (srun exRunnerPlain [3, 5] 2 0).1.countP SEvent.isEpochFinished = 2 ∧
    (srun exRunnerPlain [3, 5] 2 0).1.countP SEvent.isBatchStarted =
      2 * [3, 5].length ∧
    (srun exRunnerPlain [3, 5] 2 0).1.countP SEvent.isBatchFinished =
      2 * [3, 5].length ∧
    (srun exRunnerPlain [3, 5] 2 0).2.2.n_iters = 2 * [3, 5].length := by
  refine claim_C4 Nat Nat Nat exRunnerPlain [3, 5] 2 0 ?_ (by decide)
  refine ⟨?_, ?_, ?_, ?_, ?_, ?_⟩ <;> intro cb hcb <;> cases hcb

-- Lemmas about the typed-callback runner and `resume`.

/-- The last element of `l ++ [y]` is `y`. -/
theorem getLast_concat2 {γ : Type} (l : List γ) (y : γ) :
    (l ++ [y]).getLast? = some y := by
  rw [List.getLast?_append_cons l y []]
  rfl

/-- The last element of `l1 ++ (l2 ++ [y])` is `y`. -/
theorem getLast_append_append_concat {γ : Type} (l1 l2 : List γ) (y : γ) :
    (l1 ++ (l2 ++ [y])).getLast? = some y := by
  rw [← List.append_assoc]
  exact getLast_concat2 _ _

/-- The typed batch loop never emits `FINISHED`. -/
theorem batchesT_no_finished {α β : Type} (R : TRunner α β) (e : Nat) :
    ∀ (j : Nat) (bs : List α), (batchesT R e j bs).1.countP TEv.isFinished = 0 := by
  intro j bs
  induction bs generalizing j with
  | nil => rfl
  | cons b rest ih =>
    simp [batchesT, List.countP_cons, TEv.isFinished, ih (j + 1)]

/-- The typed epoch loop never emits `FINISHED` on a successful run. -/
theorem epochsT_no_finished {α β : Type} (R : TRunner α β) (bs : List α) :
    ∀ (n e : Nat) (r : List TEv × List (ProcCall α β)),
    epochsT R bs n e = Except.ok r → r.1.countP TEv.isFinished = 0 := by
  intro n
  induction n with
  | zero =>
    intro e r h
    simp only [epochsT] at h
    injection h with h2
    subst h2
    rfl
  | succ m ih =>
    intro e r h
    simp only [epochsT] at h
    cases hEF : runCbsOnEpochFinished R.efCbs e false with
    | error msg => rw [hEF] at h; simp at h
    | ok p =>
      rw [hEF] at h
      dsimp only at h
      by_cases hst : p.1 = true
      · rw [if_pos hst] at h
        injection h with h2
        subst h2
        simp [List.countP_cons, List.countP_append, TEv.isFinished,
          batchesT_no_finished]
      · rw [if_neg hst] at h
        cases hrec : epochsT R bs m (e + 1) with
        | error msg => rw [hrec] at h; simp at h
        | ok rR =>
          rw [hrec] at h
          dsimp only at h
          injection h with h2
          subst h2
          simp [List.countP_cons, List.countP_append, TEv.isFinished,
            batchesT_no_finished, ih (e + 1) rR hrec]

/-- `_run_epoch` (modelled) never emits `FINISHED`. -/
theorem runEpochM_no_finished {α β σ : Type} (reg : REvent → List (Cb α β σ)) :
    ∀ (r : Nat) (s : RunState α β σ),
    (runEpochM reg r s).1.countP REvent.isFinished = 0 := by
  intro r
  induction r with
  | zero => intro s; rfl
  | succ m ih =>
    intro s
    by_cases h : s.running = true
    · simp only [runEpochM]
      rw [if_pos h]
      simp [List.countP_cons, REvent.isFinished, ih]
    · simp [runEpochM, h]

/-- The epoch loop of `resume` never emits `FINISHED`. -/
theorem resumeEpochs_no_finished {α β σ : Type} (reg : REvent → List (Cb α β σ)) :
    ∀ (f : Nat) (s : RunState α β σ),
    (resumeEpochs reg f s).1.countP REvent.isFinished = 0 := by
  intro f
  induction f with
  | zero => intro s; rfl
  | succ m ih =>
    intro s
    by_cases h : s.running = true ∧ s.epoch < s.max_epoch
    · simp only [resumeEpochs]
      rw [if_pos h]
      simp [List.countP_cons, List.countP_append, REvent.isFinished,
        runEpochM_no_finished, ih]
    · simp [resumeEpochs, h]

/-- `resume` emits `FINISHED` exactly once, and it is the last emission. -/
theorem resume_finished_once {α β σ : Type} (reg : REvent → List (Cb α β σ))
    (rep : Bool) (s : RunState α β σ) :
    (resume reg rep s).1.countP REvent.isFinished = 1 ∧
    (resume reg rep s).1.getLast? = some REvent.finished := by
  constructor
  · simp only [resume]
    split
    · simp [List.countP_append, List.countP_cons, REvent.isFinished,
        resumeEpochs_no_finished]
    · split <;>
        simp [List.countP_append, List.countP_cons, REvent.isFinished,
          runEpochM_no_finished, resumeEpochs_no_finished]
  · simp only [resume]
    exact getLast_concat2 _ _

/-- Claim C1: the `FINISHED` event is emitted exactly once, at the very end
of the invocation, both for every successful `Runner.run` of the typed
runner and for every `Runner.resume`, regardless of any stop requested
along the way. -/
theorem claim_C1 :
    (∀ (α β : Type) (R : TRunner α β) (bs : List α) (tr : List TEv)
      (ins : List (ProcCall α β)), trun R bs = Except.ok (tr, ins) →
      tr.countP TEv.isFinished = 1 ∧ tr.getLast? = some TEv.finished) ∧
    (∀ (α β σ : Type) (reg : REvent → List (Cb α β σ)) (rep : Bool)
      (s : RunState α β σ), 0 < s.batches.length →
      (resume reg rep s).1.countP REvent.isFinished = 1 ∧
      (resume reg rep s).1.getLast? = some REvent.finished) := by
  constructor
  · intro α β R bs tr ins h
    simp only [trun] at h
    cases hE : epochsT R bs R.max_epoch 1 with
    | error msg => rw [hE] at h; simp at h
    | ok r =>
      rw [hE] at h
      dsimp only at h
      injection h with h2
      have htr : TEv.started :: r.1 ++ [TEv.finished] = tr :=
        congrArg Prod.fst h2
      subst htr
      constructor
      · simp [List.countP_cons, List.countP_append, TEv.isFinished,
          epochsT_no_finished R bs R.max_epoch 1 r hE]
      · exact getLast_cons_concat _ _ _
  · intro α β σ reg rep s _h
    exact resume_finished_once reg rep s

/-- Witness for C1: a one-epoch, one-batch typed run whose trace ends with
a single `FINISHED`, and a resume of the sample state that also emits
`FINISHED` once at the very end. -/
theorem claim_C1_witness :
    trun exTRunner [7] = Except.ok
      ([TEv.started, TEv.epochStarted 1, TEv.batchStarted 1 0,
        TEv.batchFinished 1 0, TEv.epochFinished 1, TEv.finished],
        [ProcCall.mk 1 0 7 7 7]) ∧
    ([TEv.started, TEv.epochStarted 1, TEv.batchStarted 1 0,
      TEv.batchFinished 1 0, TEv.epochFinished 1,
      TEv.finished] : List TEv).countP TEv.isFinished = 1 ∧
    ([TEv.started, TEv.epochStarted 1, TEv.batchStarted 1 0,
      TEv.batchFinished 1 0, TEv.epochFinished 1,
      TEv.finished] : List TEv).getLast? = some TEv.finished ∧
    (resume (fun _ => ([] : List (Cb Nat Nat Nat))) false exState).1.countP
      REvent.isFinished = 1 ∧
    (resume (fun _ => ([] : List (Cb Nat Nat Nat))) false exState).1.getLast? =
      some REvent.finished := by
  have h1 := claim_C1.1 Nat Nat exTRunner [7]
    [TEv.started, TEv.epochStarted 1, TEv.batchStarted 1 0, TEv.batchFinished 1 0,
      TEv.epochFinished 1, TEv.finished] [ProcCall.mk 1 0 7 7 7] rfl
  have h2 := claim_C1.2 Nat Nat Nat (fun _ => []) false exState (by decide)
  exact ⟨rfl, h1.1, h1.2, h2.1, h2.2⟩

/-- The batch-started chain applied to each recorded processor call. -/
theorem batchesT_calls {α β : Type} (R : TRunner α β) (e : Nat) :
    ∀ (j : Nat) (bs : List α) (x : ProcCall α β), x ∈ (batchesT R e j bs).2 →
    x.precv = runCbsOnBatchStarted R.bsCbs x.pepoch x.pidx x.porig ∧
    x.pout = R.on_batch x.pepoch x.pidx x.precv := by
  intro j bs
  induction bs generalizing j with
  | nil => intro x hx; cases hx
  | cons b rest ih =>
    intro x hx
    simp only [batchesT] at hx
    rcases List.mem_cons.mp hx with h | h
    · subst h; exact ⟨rfl, rfl⟩
    · exact ih (j + 1) x h

/-- The recorded processor calls of a successful typed run all satisfy the
batch-started chaining relation. -/
theorem epochsT_calls {α β : Type} (R : TRunner α β) (bs : List α) :
    ∀ (n e : Nat) (r : List TEv × List (ProcCall α β)),
    epochsT R bs n e = Except.ok r → ∀ x ∈ r.2,
    x.precv = runCbsOnBatchStarted R.bsCbs x.pepoch x.pidx x.porig ∧
    x.pout = R.on_batch x.pepoch x.pidx x.precv := by
  intro n
  induction n with
  | zero =>
    intro e r h x hx
    simp only [epochsT] at h
    injection h with h2
    subst h2
    cases hx
  | succ m ih =>
    intro e r h x hx
    simp only [epochsT] at h
    cases hEF : runCbsOnEpochFinished R.efCbs e false with
    | error msg => rw [hEF] at h; simp at h
    | ok p =>
      rw [hEF] at h
      dsimp only at h
      by_cases hst : p.1 = true
      · rw [if_pos hst] at h
        injection h with h2
        subst h2
        exact batchesT_calls R e 0 bs x hx
      · rw [if_neg hst] at h
        cases hrec : epochsT R bs m (e + 1) with
        | error msg => rw [hrec] at h; simp at h
        | ok rR =>
          rw [hrec] at h
          dsimp only at h
          injection h with h2
          subst h2
          rcases List.mem_append.mp hx with hmem | hmem
          · exact batchesT_calls R e 0 bs x hmem
          · exact ih (e + 1) rR hrec x hmem

/-- Claim C5: batch-started callbacks chain — appending a callback to the
chain applies it to the previous chain's result, the chain is the left fold
of the callbacks over the batch in registration order, and in every
successful typed run the batch processor receives exactly the chained value
for each processed batch. -/
theorem claim_C5 :
    (∀ (α : Type) (cbs : List (Nat → Nat → α → α)) (c : Nat → Nat → α → α)
      (e bi : Nat) (b : α),
      runCbsOnBatchStarted (cbs ++ [c]) e bi b =
        c e bi (runCbsOnBatchStarted cbs e bi b)) ∧
    (∀ (α : Type) (cbs : List (Nat → Nat → α → α)) (e bi : Nat) (b : α),
      runCbsOnBatchStarted cbs e bi b = cbs.foldl (fun x cb => cb e bi x) b) ∧
    (∀ (α β : Type) (R : TRunner α β) (bs : List α) (tr : List TEv)
      (ins : List (ProcCall α β)) (x : ProcCall α β),
      trun R bs = Except.ok (tr, ins) → x ∈ ins →
      x.precv = runCbsOnBatchStarted R.bsCbs x.pepoch x.pidx x.porig ∧
      x.pout = R.on_batch x.pepoch x.pidx x.precv) := by
  refine ⟨?_, ?_, ?_⟩
  · intro α cbs c e bi b
    induction cbs generalizing b with
    | nil => rfl
    | cons c2 cs ih => exact ih (c2 e bi b)
  · intro α cbs e bi b
    induction cbs generalizing b with
    | nil => rfl
    | cons c2 cs ih => exact ih (c2 e bi b)
  · intro α β R bs tr ins x h hx
    simp only [trun] at h
    cases hE : epochsT R bs R.max_epoch 1 with
    | error msg => rw [hE] at h; simp at h
    | ok r =>
      rw [hE] at h
      dsimp only at h
      injection h with h2
      have hins : r.2 = ins := congrArg Prod.snd h2
      subst hins
      exact epochsT_calls R bs R.max_epoch 1 r hE x hx

/-- Witness for C5: with the add-one and square transformations of the
repository's own runner test, the processor receives `(3 + 1)^2 = 16`. -/
theorem claim_C5_witness :
    runCbsOnBatchStarted ([fun _ _ b => b + 1] ++ [fun _ _ b => b * b]) 1 0 3 =
      (fun (_ _ : Nat) (b : Nat) => b * b) 1 0
        (runCbsOnBatchStarted [fun _ _ b => b + 1] 1 0 3) ∧
    runCbsOnBatchStarted exTRunnerChain.bsCbs 1 0 3 =
      exTRunnerChain.bsCbs.foldl (fun x cb => cb 1 0 x) 3 ∧
    (ProcCall.mk 1 0 3 16 16 : ProcCall Nat Nat).precv =
      runCbsOnBatchStarted exTRunnerChain.bsCbs 1 0 3 ∧
    (ProcCall.mk 1 0 3 16 16 : ProcCall Nat Nat).pout =
      exTRunnerChain.on_batch 1 0 16 := by
  have h3 := claim_C5.2.2 Nat Nat exTRunnerChain [3]
    [TEv.started, TEv.epochStarted 1, TEv.batchStarted 1 0, TEv.batchFinished 1 0,
      TEv.epochFinished 1, TEv.finished] [ProcCall.mk 1 0 3 16 16]
    (ProcCall.mk 1 0 3 16 16) rfl (List.mem_singleton.mpr rfl)
  exact ⟨claim_C5.1 Nat [fun _ _ b => b + 1] (fun _ _ b => b * b) 1 0 3,
    claim_C5.2.1 Nat exTRunnerChain.bsCbs 1 0 3, h3.1, h3.2⟩

/-- Claim C7: an epoch-finished callback whose arity is neither 1 nor 2
makes the dispatch fail fast at call time with a descriptive
signature-mismatch `TypeError` naming the callback and the offending arity
— provided the dispatch actually reaches it (the preceding callbacks are
well-formed and do not stop the runner); the mismatch is never silently
swallowed. -/
theorem claim_C7 :
    ∀ (pre post : List EFCb) (cb : EFCb) (e : Nat),
    cb.nargs ≠ 1 → cb.nargs ≠ 2 →
    (∀ c ∈ pre, (c.nargs = 1 ∨ c.nargs = 2) ∧ (c.nargs = 2 → c.stops e = false)) →
    runCbsOnEpochFinished (pre ++ cb :: post) e false =
      Except.error ("expected " ++ cb.name ++
        "() to accept 1 or 2 arguments but got " ++ toString cb.nargs) := by
  intro pre
  induction pre with
  | nil =>
    intro post cb e h1 h2 _
    simp [runCbsOnEpochFinished, h1, h2]
  | cons c cs ih =>
    intro post cb e h1 h2 hpre
    have hc := hpre c (List.mem_cons_self c cs)
    have hcs : ∀ c2 ∈ cs, (c2.nargs = 1 ∨ c2.nargs = 2) ∧
        (c2.nargs = 2 → c2.stops e = false) :=
      fun c2 h => hpre c2 (List.mem_cons_of_mem c h)
    rcases hc.1 with hn1 | hn2
    · simp [List.cons_append, runCbsOnEpochFinished, hn1,
        ih post cb e h1 h2 hcs]
    · simp [List.cons_append, runCbsOnEpochFinished, hn2, hc.2 hn2,
        ih post cb e h1 h2 hcs]

/-- Witness for C7: a zero-argument callback sitting after a well-formed
one-argument callback makes the dispatch raise the signature-mismatch
error naming it. -/
theorem claim_C7_witness :
    runCbsOnEpochFinished ([exEFok] ++ exEFbad :: [exEFok]) 1 false =
      Except.error ("expected " ++ exEFbad.name ++
        "() to accept 1 or 2 arguments but got " ++ toString exEFbad.nargs) := by
  refine claim_C7 [exEFok] [exEFok] exEFbad 1 (by decide) (by decide) ?_
  intro c hc
  rcases List.mem_singleton.mp hc with rfl
  exact ⟨Or.inl rfl, fun h2 => absurd h2 (by decide)⟩

-- Lemmas about the checkpoint handler.

/-- One checkpointer call keeps the retention queue within `max_saved`. -/
theorem ckptCall_bound (m : Nat) (d : Bool) (c : CkptState)
    (h : c.deque.length ≤ m) : (ckptCall m d c).deque.length ≤ m := by
  simp only [ckptCall]
  by_cases h2 : m <
      (if d = true then c.deque ++ [c.n_calls + 1] else c.deque).length
  · rw [if_pos h2]
    have hlen : (if d = true then c.deque ++ [c.n_calls + 1] else c.deque).length ≤
        c.deque.length + 1 := by
      cases d <;> simp [List.length_append]
    simp only [List.length_tail]
    omega
  · rw [if_neg h2]
    omega

/-- Claim C8: for every `max_saved` and every sequence of invocations from
a fresh `Checkpointer`, the number of retained checkpoints never exceeds
`max_saved`; a save that would exceed the maximum pops the front — the
oldest — entry of the retention queue, and a save within the maximum
deletes nothing. -/
theorem claim_C8 :
    (∀ (m : Nat) (ds : List Bool),
      ((ds.foldl (fun c d => ckptCall m d c) ckptInit).deque.length ≤ m)) ∧
    (∀ (m : Nat) (c : CkptState), m ≤ c.deque.length →
      ckptCall m true c =
        CkptState.mk (c.n_calls + 1) ((c.deque ++ [c.n_calls + 1]).tail)) ∧
    (∀ (m : Nat) (c : CkptState), c.deque.length < m →
      ckptCall m true c =
        CkptState.mk (c.n_calls + 1) (c.deque ++ [c.n_calls + 1])) := by
  refine ⟨?_, ?_, ?_⟩
  · intro m ds
    have hgen : ∀ (l : List Bool) (c : CkptState), c.deque.length ≤ m →
        ((l.foldl (fun c2 d => ckptCall m d c2) c).deque.length ≤ m) := by
      intro l
      induction l with
      | nil => intro c h; exact h
      | cons d rest ih => intro c h; exact ih _ (ckptCall_bound m d c h)
    exact hgen ds ckptInit (Nat.zero_le m)
  · intro m c h
    have hcond : m < c.deque.length + 1 := by omega
    simp [ckptCall, List.length_append, hcond]
  · intro m c h
    have hcond : ¬m < c.deque.length + 1 := by omega
    simp [ckptCall, List.length_append, hcond]

/-- Witness for C8: with `max_saved = 1`, three always-saving calls retain
at most one checkpoint; a call at the limit drops the oldest entry `2` and
retains the new `4`; a call under the limit deletes nothing. -/
theorem claim_C8_witness :
    (([true, true, true].foldl (fun c d => ckptCall 1 d c) ckptInit).deque.length
      ≤ 1) ∧
    ckptCall 1 true (CkptState.mk 3 [2]) =
      CkptState.mk 4 (([2] ++ [4]).tail) ∧
    ckptCall 1 true (CkptState.mk 0 []) = CkptState.mk 1 ([] ++ [1]) := by
  exact ⟨claim_C8.1 1 [true, true, true],
    claim_C8.2.1 1 (CkptState.mk 3 [2]) (by decide),
    claim_C8.2.2 1 (CkptState.mk 0 []) (by decide)⟩
